import Mathlib

/-!
Verification of the requires-side relation library
`lib/charms/data_platform_libs/v0/database_requires.py`.

Relation databags are modelled as association lists from string keys to
string values (`Dict`), mirroring Python `dict` objects with their
insertion order.  Python's `json.dumps` and `json.loads` round trip on
flat string-to-string dictionaries, and `json.loads` raises
`json.JSONDecodeError` on input that is not valid JSON; this stdlib
contract is modelled by the `StoredData` type: `StoredData.obj m` stands
for the JSON serialization of the mapping `m`, while `StoredData.corrupt
raw` stands for a stored string that is not valid JSON.  An exception
escaping a Python method is modelled by an `Option` result, `none`
meaning the call raised.
-/

namespace DataPlatform

/-- A relation databag: a Python `dict` from string keys to string values. -/
abbrev Dict := List (String × String)

/-- Key list of a databag, as in `dict.keys()`. -/
def Dict.keys (d : Dict) : List String := d.map Prod.fst

/-- Python `dict.get`: the value of the first binding of the key, if any. -/
def Dict.lookup : Dict → String → Option String
  | [], _ => none
  | (k, v) :: rest, key => if k = key then some v else Dict.lookup rest key

/-- Python `d[key] = v`: replace the binding of `key` in place, appending a
fresh binding at the end when the key is absent. -/
def Dict.setKey : Dict → String → String → Dict
  | [], key, v => [(key, v)]
  | (k, w) :: rest, key, v =>
    if k = key then (key, v) :: rest else (k, w) :: Dict.setKey rest key v

/-- Python `dict.update`: apply every binding of `upd`, in order, to `d`. -/
def Dict.update : Dict → Dict → Dict
  | d, [] => d
  | d, (k, v) :: rest => Dict.update (d.setKey k v) rest

/-- The value stored under the reserved bookkeeping key `data` of the
local unit databag.  `obj m` is the JSON serialization of the flat string
mapping `m` (what `json.dumps(new_data)` produces); `corrupt raw` is a
stored string that is not valid JSON. -/
inductive StoredData
  | corrupt (raw : String)
  | obj (m : Dict)
  deriving DecidableEq, Repr

/-- Python `json.loads` on a stored baseline: returns the mapping a
serialization denotes and raises (`none`) on input that is not valid
JSON. -/
def jsonLoads : StoredData → Option Dict
  | .corrupt _ => none
  | .obj m => some m

/-- Python `json.dumps` on a flat string mapping. -/
def jsonDumps (m : Dict) : StoredData := .obj m

/-- The namedtuple `Diff = namedtuple("Diff", "added changed deleted")`.
Set-valued fields are carried as lists and read up to membership. -/
structure Diff where
  added : List String
  changed : List String
  deleted : List String
  deriving DecidableEq, Repr

/-- The `new_data` comprehension of `BaseRequires._diff`: the remote
application databag with the reserved `data` key filtered out. -/
def currentData (remote : Dict) : Dict :=
  remote.filter (fun kv => decide (kv.1 ≠ "data"))

/-- The three key-set computations of `BaseRequires._diff`: `added` is
`new_data.keys() - old_data.keys()`, `deleted` is
`old_data.keys() - new_data.keys()`, and `changed` collects the keys in
both whose values differ. -/
def computeDiff (old nw : Dict) : Diff where
  added := (Dict.keys nw).filter (fun k => decide (k ∉ Dict.keys old))
  changed := (Dict.keys old).filter
    (fun k => decide (k ∈ Dict.keys nw ∧ Dict.lookup old k ≠ Dict.lookup nw k))
  deleted := (Dict.keys old).filter (fun k => decide (k ∉ Dict.keys nw))

/-- `BaseRequires._diff`: load the stored baseline from the `data` key of
the local unit databag (defaulting to the serialization of the empty
mapping when the key is absent), take the current remote databag without
the reserved `data` key, compute the added, changed and deleted key sets,
store the current snapshot as the new baseline, and return the diff
together with the new stored baseline.  A `none` result models the
`json.JSONDecodeError` raised on an unparseable baseline. -/
def diffRun (stored : Option StoredData) (remote : Dict) :
    Option (Diff × StoredData) :=
  match jsonLoads (stored.getD (jsonDumps [])) with
  | none => none
  | some old =>
    some (computeDiff old (currentData remote), jsonDumps (currentData remote))

theorem computeDiff_self (nw : Dict) : computeDiff nw nw = ⟨[], [], []⟩ := by
  unfold computeDiff
  simp only [Diff.mk.injEq]
  refine ⟨?_, ?_, ?_⟩ <;>
    · rw [List.filter_eq_nil_iff]
      intro a ha
      simp [ha]

/-- One relation instance under the configured relation name: its numeric
id and the three databags the library touches (`relation.data[local_app]`,
`relation.data[local_unit]` and `relation.data[relation.app]`). -/
structure RelationState where
  id : Nat
  localAppBag : Dict
  localUnitBag : Dict
  remoteAppBag : Dict
  deriving DecidableEq, Repr

/-- Python `model.get_relation(relation_name, relation_id)`: the first
relation with the given id, if any. -/
def findRel (relations : List RelationState) (rid : Nat) : Option RelationState :=
  relations.find? (fun r => decide (r.id = rid))

/-- Python truthiness of `databag.get(key)`: `None` and the empty string
are falsy, any other string is truthy. -/
def truthy : Option String → Bool
  | none => false
  | some s => decide (s ≠ "")

/-- `DatabaseRequires._get_relation_alias`: scan the relations of the
relation name, and for the first one with a matching id return the value
stored under `alias` in its local unit databag; `none` when no relation
matches. -/
def getRelationAlias (relations : List RelationState) (rid : Nat) : Option String :=
  match findRel relations rid with
  | some r => r.localUnitBag.lookup "alias"
  | none => none

/-- The three custom event kinds of `DatabaseEvents`. -/
inductive DbEventKind
  | databaseCreated
  | endpointsChanged
  | readOnlyEndpointsChanged
  deriving DecidableEq, Repr

/-- The payload every emission passes along: `event.relation`,
`event.app` and `event.unit`. -/
structure Payload where
  relId : Nat
  app : String
  unit : String
  deriving DecidableEq, Repr

/-- One emitted custom event: `aliasTag = none` for the unqualified event
source, `aliasTag = some a` for the alias-qualified source named
`a_<kind>`. -/
structure EmittedEvent where
  aliasTag : Option String
  kind : DbEventKind
  payload : Payload
  deriving DecidableEq, Repr

/-- `DatabaseRequires._emit_aliased_event`: look up the relation's alias
and, when it is truthy, emit the alias-qualified event with the same
relation, app and unit payload. -/
def emitAliasedEvent (relations : List RelationState) (rid : Nat) (p : Payload)
    (kind : DbEventKind) : List EmittedEvent :=
  if truthy (getRelationAlias relations rid) then
    [⟨getRelationAlias relations rid, kind, p⟩]
  else []

/-- One branch body of `DatabaseRequires._on_relation_changed_event`:
emit the unqualified event, then the aliased event if any. -/
def emitEvent (relations : List RelationState) (rid : Nat) (p : Payload)
    (kind : DbEventKind) : List EmittedEvent :=
  ⟨none, kind, p⟩ :: emitAliasedEvent relations rid p kind

/-- The branch structure of `DatabaseRequires._on_relation_changed_event`
applied to the `Diff` returned by `_diff`: credentials added fire
`database_created` and return; else `endpoints` added or changed fire
`endpoints_changed` and return; else `read-only-endpoints` added or
changed fire `read_only_endpoints_changed`; else nothing is emitted. -/
def dbDispatch (relations : List RelationState) (rid : Nat) (p : Payload)
    (d : Diff) : List EmittedEvent :=
  if "username" ∈ d.added ∧ "password" ∈ d.added then
    emitEvent relations rid p .databaseCreated
  else if "endpoints" ∈ d.added ∨ "endpoints" ∈ d.changed then
    emitEvent relations rid p .endpointsChanged
  else if "read-only-endpoints" ∈ d.added ∨ "read-only-endpoints" ∈ d.changed then
    emitEvent relations rid p .readOnlyEndpointsChanged
  else []

theorem mem_keys_currentData (remote : Dict) (k : String) :
    k ∈ Dict.keys (currentData remote) ↔ k ∈ Dict.keys remote ∧ k ≠ "data" := by
  constructor
  · intro hk
    simp only [currentData, Dict.keys, List.mem_map] at hk
    obtain ⟨kv, hkv, rfl⟩ := hk
    rw [List.mem_filter] at hkv
    obtain ⟨hmem, hp⟩ := hkv
    exact ⟨List.mem_map_of_mem _ hmem, by simpa using hp⟩
  · rintro ⟨hk, hne⟩
    simp only [Dict.keys, List.mem_map] at hk
    obtain ⟨kv, hkv, rfl⟩ := hk
    simp only [currentData, Dict.keys, List.mem_map]
    exact ⟨kv, List.mem_filter.mpr ⟨hkv, by simpa using hne⟩, rfl⟩

theorem mem_added_computeDiff (old nw : Dict) (k : String) :
    k ∈ (computeDiff old nw).added ↔ k ∈ Dict.keys nw ∧ k ∉ Dict.keys old := by
  simp [computeDiff, List.mem_filter]

theorem mem_deleted_computeDiff (old nw : Dict) (k : String) :
    k ∈ (computeDiff old nw).deleted ↔ k ∈ Dict.keys old ∧ k ∉ Dict.keys nw := by
  simp [computeDiff, List.mem_filter]

theorem mem_changed_computeDiff (old nw : Dict) (k : String) :
    k ∈ (computeDiff old nw).changed ↔
      k ∈ Dict.keys old ∧ k ∈ Dict.keys nw ∧ Dict.lookup old k ≠ Dict.lookup nw k := by
  simp [computeDiff, List.mem_filter]

/-- C1: for every relation state, running `BaseRequires._diff` and then
running it again with the remote application databag unchanged yields an
empty `Diff` on the second call: `added`, `changed` and `deleted` are all
empty, and the stored baseline is left as it was. -/
theorem diff_second_call_is_empty (stored : Option StoredData) (remote : Dict)
    (d : Diff) (st : StoredData)
    (h : diffRun stored remote = some (d, st)) :
    diffRun (some st) remote = some (⟨[], [], []⟩, st) := by
  unfold diffRun at h ⊢
  cases hjl : jsonLoads (stored.getD (jsonDumps [])) with
  | none =>
    rw [hjl] at h
    simp at h
  | some old =>
    rw [hjl] at h
    simp only [Option.some.injEq, Prod.mk.injEq] at h
    obtain ⟨-, hst⟩ := h
    subst hst
    simp [jsonDumps, jsonLoads, computeDiff_self]

theorem diff_second_call_is_empty_witness :
    diffRun (some (jsonDumps (currentData [("username", "u")]))) [("username", "u")]
      = some (⟨[], [], []⟩, jsonDumps (currentData [("username", "u")])) :=
  diff_second_call_is_empty none [("username", "u")]
    (computeDiff [] (currentData [("username", "u")]))
    (jsonDumps (currentData [("username", "u")])) rfl

/-- C2: `BaseRequires._diff` on a stored baseline `prior` and a remote
databag returns exactly `added = keys(current) - keys(prior)`,
`deleted = keys(prior) - keys(current)` and
`changed = the keys in both whose values differ`, where `current` is the
remote databag without the reserved `data` key; the three sets are
pairwise disjoint; the new stored baseline is the serialization of
`current`; and a missing baseline behaves as the empty mapping. -/
theorem diff_exact_characterization (prior remote : Dict) :
    ∃ d : Diff,
      diffRun (some (jsonDumps prior)) remote
          = some (d, jsonDumps (currentData remote)) ∧
      (∀ k, k ∈ Dict.keys (currentData remote) ↔ k ∈ Dict.keys remote ∧ k ≠ "data") ∧
      (∀ k, k ∈ d.added ↔ k ∈ Dict.keys (currentData remote) ∧ k ∉ Dict.keys prior) ∧
      (∀ k, k ∈ d.deleted ↔ k ∈ Dict.keys prior ∧ k ∉ Dict.keys (currentData remote)) ∧
      (∀ k, k ∈ d.changed ↔
        k ∈ Dict.keys prior ∧ k ∈ Dict.keys (currentData remote) ∧
          Dict.lookup prior k ≠ Dict.lookup (currentData remote) k) ∧
      (∀ k, ¬(k ∈ d.added ∧ k ∈ d.changed)) ∧
      (∀ k, ¬(k ∈ d.added ∧ k ∈ d.deleted)) ∧
      (∀ k, ¬(k ∈ d.changed ∧ k ∈ d.deleted)) ∧
      diffRun none remote = diffRun (some (jsonDumps [])) remote := by
  refine ⟨computeDiff prior (currentData remote), rfl,
    mem_keys_currentData remote,
    mem_added_computeDiff prior (currentData remote),
    mem_deleted_computeDiff prior (currentData remote),
    mem_changed_computeDiff prior (currentData remote), ?_, ?_, ?_, rfl⟩
  · rintro k ⟨h1, h2⟩
    rw [mem_added_computeDiff] at h1
    rw [mem_changed_computeDiff] at h2
    exact h1.2 h2.1
  · rintro k ⟨h1, h2⟩
    rw [mem_added_computeDiff] at h1
    rw [mem_deleted_computeDiff] at h2
    exact h1.2 h2.1
  · rintro k ⟨h1, h2⟩
    rw [mem_changed_computeDiff] at h1
    rw [mem_deleted_computeDiff] at h2
    exact h2.2 h1.2.1

theorem diff_exact_characterization_witness :
    ∃ d : Diff,
      diffRun (some (jsonDumps [("a", "1")])) [("a", "2")]
          = some (d, jsonDumps (currentData [("a", "2")])) ∧
      (∀ k, k ∈ Dict.keys (currentData [("a", "2")]) ↔
        k ∈ Dict.keys [("a", "2")] ∧ k ≠ "data") ∧
      (∀ k, k ∈ d.added ↔
        k ∈ Dict.keys (currentData [("a", "2")]) ∧ k ∉ Dict.keys [("a", "1")]) ∧
      (∀ k, k ∈ d.deleted ↔
        k ∈ Dict.keys [("a", "1")] ∧ k ∉ Dict.keys (currentData [("a", "2")])) ∧
      (∀ k, k ∈ d.changed ↔
        k ∈ Dict.keys [("a", "1")] ∧ k ∈ Dict.keys (currentData [("a", "2")]) ∧
          Dict.lookup [("a", "1")] k ≠ Dict.lookup (currentData [("a", "2")]) k) ∧
      (∀ k, ¬(k ∈ d.added ∧ k ∈ d.changed)) ∧
      (∀ k, ¬(k ∈ d.added ∧ k ∈ d.deleted)) ∧
      (∀ k, ¬(k ∈ d.changed ∧ k ∈ d.deleted)) ∧
      diffRun none [("a", "2")] = diffRun (some (jsonDumps [])) [("a", "2")] :=
  diff_exact_characterization [("a", "1")] [("a", "2")]

/-- C3: on every relation-changed event handled by `DatabaseRequires`, at
most one of the three custom event kinds is emitted, in strict priority
order: both credential keys added fire only `database_created`; else
`endpoints` added or changed fires only `endpoints_changed`; else
`read-only-endpoints` added or changed fires only
`read_only_endpoints_changed`; else nothing fires.  Every event a branch
emits carries that branch's kind, and the unqualified event of the kind
is emitted. -/
theorem db_dispatch_priority (relations : List RelationState) (rid : Nat)
    (p : Payload) (d : Diff) :
    (("username" ∈ d.added ∧ "password" ∈ d.added) →
      dbDispatch relations rid p d = emitEvent relations rid p .databaseCreated) ∧
    (¬("username" ∈ d.added ∧ "password" ∈ d.added) →
      ("endpoints" ∈ d.added ∨ "endpoints" ∈ d.changed) →
      dbDispatch relations rid p d = emitEvent relations rid p .endpointsChanged) ∧
    (¬("username" ∈ d.added ∧ "password" ∈ d.added) →
      ¬("endpoints" ∈ d.added ∨ "endpoints" ∈ d.changed) →
      ("read-only-endpoints" ∈ d.added ∨ "read-only-endpoints" ∈ d.changed) →
      dbDispatch relations rid p d
        = emitEvent relations rid p .readOnlyEndpointsChanged) ∧
    (¬("username" ∈ d.added ∧ "password" ∈ d.added) →
      ¬("endpoints" ∈ d.added ∨ "endpoints" ∈ d.changed) →
      ¬("read-only-endpoints" ∈ d.added ∨ "read-only-endpoints" ∈ d.changed) →
      dbDispatch relations rid p d = []) ∧
    (∀ kind, ∀ e ∈ emitEvent relations rid p kind, e.kind = kind) ∧
    (∀ kind, (⟨none, kind, p⟩ : EmittedEvent) ∈ emitEvent relations rid p kind) := by
  refine ⟨?_, ?_, ?_, ?_, ?_, ?_⟩
  · intro h
    simp [dbDispatch, h]
  · intro h1 h2
    simp [dbDispatch, h1, h2]
  · intro h1 h2 h3
    simp [dbDispatch, h1, h2, h3]
  · intro h1 h2 h3
    simp [dbDispatch, h1, h2, h3]
  · intro kind e he
    rw [emitEvent, List.mem_cons] at he
    rcases he with rfl | he2
    · rfl
    · unfold emitAliasedEvent at he2
      by_cases ht : truthy (getRelationAlias relations rid) = true
      · rw [if_pos ht] at he2
        have he3 := List.mem_singleton.mp he2
        subst he3
        rfl
      · rw [if_neg ht] at he2
        cases he2
  · intro kind
    exact List.mem_cons_self _ _

theorem db_dispatch_priority_witness :
    dbDispatch [] 0 ⟨1, "application", "application/0"⟩
        ⟨["username", "password"], [], []⟩
      = emitEvent [] 0 ⟨1, "application", "application/0"⟩ .databaseCreated :=
  (db_dispatch_priority [] 0 ⟨1, "application", "application/0"⟩
    ⟨["username", "password"], [], []⟩).1 (by decide)

/-- C5: for every classified event kind, the unqualified event is emitted
first; the alias-qualified event, carrying the same payload, is emitted
exactly when the relation has a persisted (truthy) alias; with no alias
only the unqualified event is emitted and no error occurs. -/
theorem emit_event_dual_dispatch (relations : List RelationState) (rid : Nat)
    (p : Payload) (kind : DbEventKind) :
    (emitEvent relations rid p kind).head? = some ⟨none, kind, p⟩ ∧
    (∀ a, getRelationAlias relations rid = some a → a ≠ "" →
      emitEvent relations rid p kind
        = [⟨none, kind, p⟩, ⟨some a, kind, p⟩]) ∧
    (truthy (getRelationAlias relations rid) = false →
      emitEvent relations rid p kind = [⟨none, kind, p⟩]) := by
  refine ⟨rfl, ?_, ?_⟩
  · intro a ha hne
    simp [emitEvent, emitAliasedEvent, ha, truthy, hne]
  · intro hf
    simp [emitEvent, emitAliasedEvent, hf]

theorem emit_event_dual_dispatch_witness :
    emitEvent [⟨7, [], [("alias", "cluster1")], []⟩] 7
        ⟨7, "database", "database/0"⟩ DbEventKind.databaseCreated
      = [⟨none, DbEventKind.databaseCreated, ⟨7, "database", "database/0"⟩⟩,
         ⟨some "cluster1", DbEventKind.databaseCreated,
           ⟨7, "database", "database/0"⟩⟩] :=
  (emit_event_dual_dispatch [⟨7, [], [("alias", "cluster1")], []⟩] 7
    ⟨7, "database", "database/0"⟩ DbEventKind.databaseCreated).2.1
    "cluster1" (by decide) (by decide)

/-- Merge semantics helper: the first option when it is `some`, the
second otherwise. -/
def firstSome (a b : Option String) : Option String :=
  match a with
  | some v => some v
  | none => b

theorem Dict.lookup_setKey (d : Dict) (key v k : String) :
    Dict.lookup (Dict.setKey d key v) k
      = if key = k then some v else Dict.lookup d k := by
  induction d with
  | nil => simp [Dict.setKey, Dict.lookup]
  | cons kv rest ih =>
    obtain ⟨k0, w⟩ := kv
    by_cases h0 : k0 = key
    · subst h0
      simp only [Dict.setKey, if_pos rfl]
      by_cases hk : k0 = k
      · subst hk
        simp [Dict.lookup]
      · simp [Dict.lookup, hk]
    · simp only [Dict.setKey, if_neg h0]
      by_cases hk : k0 = k
      · subst hk
        have hne : key ≠ k0 := fun he => h0 he.symm
        simp [Dict.lookup, if_neg hne]
      · simp [Dict.lookup, hk, ih]

theorem Dict.lookup_eq_none (d : Dict) (k : String) (h : k ∉ Dict.keys d) :
    Dict.lookup d k = none := by
  induction d with
  | nil => rfl
  | cons kv rest ih =>
    obtain ⟨k0, w⟩ := kv
    simp only [Dict.keys, List.map_cons, List.mem_cons] at h
    push_neg at h
    obtain ⟨h1, h2⟩ := h
    have hne : k0 ≠ k := fun he => h1 he.symm
    simp only [Dict.lookup, if_neg hne]
    exact ih h2

theorem Dict.lookup_update (d upd : Dict) (k : String)
    (h : (Dict.keys upd).Nodup) :
    Dict.lookup (Dict.update d upd) k
      = firstSome (Dict.lookup upd k) (Dict.lookup d k) := by
  induction upd generalizing d with
  | nil => simp [Dict.update, Dict.lookup, firstSome]
  | cons kv rest ih =>
    obtain ⟨a, v⟩ := kv
    simp only [Dict.keys, List.map_cons, List.nodup_cons] at h
    obtain ⟨hna, hnd⟩ := h
    rw [Dict.update, ih _ hnd]
    by_cases hak : a = k
    · subst hak
      have hrest : Dict.lookup rest a = none := Dict.lookup_eq_none rest a hna
      simp [hrest, Dict.lookup_setKey, Dict.lookup, firstSome]
    · simp [Dict.lookup, hak, Dict.lookup_setKey, firstSome]

/-- `BaseRequires._update_relation_data`: only the leader unit writes.
On the leader the relation is looked up by id and the given key-value
pairs are applied to its local application databag in place; a `none`
result models the `AttributeError` raised when no relation has the id.
On a non-leader unit nothing at all happens. -/
def updateRelationData (isLeader : Bool) (relations : List RelationState)
    (rid : Nat) (data : Dict) : Option (List RelationState) :=
  if isLeader then
    match findRel relations rid with
    | none => none
    | some _ =>
      some (relations.map (fun r =>
        if r.id = rid then
          { r with localAppBag := r.localAppBag.update data }
        else r))
  else some relations

/-- C4: `_update_relation_data` on a non-leader unit is a silent no-op —
every relation is left unchanged and no error is raised — while on the
leader it merges exactly the given key-value pairs into the local
application databag of the relation with the given id, leaving that
relation's other bags, its id, and every other relation unchanged. -/
theorem update_relation_data_leader_gate (relations : List RelationState)
    (rid : Nat) (data : Dict) :
    updateRelationData false relations rid data = some relations ∧
    (∀ r, findRel relations rid = some r → (Dict.keys data).Nodup →
      ∃ relations2,
        updateRelationData true relations rid data = some relations2 ∧
        relations2.length = relations.length ∧
        ∀ i (h1 : i < relations.length) (h2 : i < relations2.length),
          (relations2.get ⟨i, h2⟩).id = (relations.get ⟨i, h1⟩).id ∧
          (relations2.get ⟨i, h2⟩).localUnitBag
            = (relations.get ⟨i, h1⟩).localUnitBag ∧
          (relations2.get ⟨i, h2⟩).remoteAppBag
            = (relations.get ⟨i, h1⟩).remoteAppBag ∧
          ((relations.get ⟨i, h1⟩).id ≠ rid →
            relations2.get ⟨i, h2⟩ = relations.get ⟨i, h1⟩) ∧
          ((relations.get ⟨i, h1⟩).id = rid → ∀ k,
            Dict.lookup (relations2.get ⟨i, h2⟩).localAppBag k
              = firstSome (Dict.lookup data k)
                  (Dict.lookup (relations.get ⟨i, h1⟩).localAppBag k))) := by
  constructor
  · simp [updateRelationData]
  · intro r hr hnd
    refine ⟨relations.map (fun r =>
      if r.id = rid then
        { r with localAppBag := r.localAppBag.update data }
      else r), ?_, List.length_map _ _, ?_⟩
    · simp [updateRelationData, hr]
    · intro i h1 h2
      simp only [List.get_eq_getElem, List.getElem_map]
      by_cases hid : (relations.get ⟨i, h1⟩).id = rid
      · simp only [List.get_eq_getElem] at hid
        constructor
        · simp [hid]
        refine ⟨by simp [hid], by simp [hid], fun hco => absurd hid hco, ?_⟩
        intro _ k
        simp only [hid, if_pos rfl]
        exact Dict.lookup_update _ data k hnd
      · simp only [List.get_eq_getElem] at hid
        simp [hid]

theorem update_relation_data_leader_gate_witness :
    ∃ relations2,
      updateRelationData true [⟨3, [("database", "db")], [], []⟩] 3
          [("extra-user-roles", "admin")] = some relations2 ∧
      relations2.length = [(⟨3, [("database", "db")], [], []⟩ : RelationState)].length ∧
      ∀ i (h1 : i < [(⟨3, [("database", "db")], [], []⟩ : RelationState)].length)
          (h2 : i < relations2.length),
        (relations2.get ⟨i, h2⟩).id
          = ([(⟨3, [("database", "db")], [], []⟩ : RelationState)].get ⟨i, h1⟩).id ∧
        (relations2.get ⟨i, h2⟩).localUnitBag
          = ([(⟨3, [("database", "db")], [], []⟩ : RelationState)].get
              ⟨i, h1⟩).localUnitBag ∧
        (relations2.get ⟨i, h2⟩).remoteAppBag
          = ([(⟨3, [("database", "db")], [], []⟩ : RelationState)].get
              ⟨i, h1⟩).remoteAppBag ∧
        (([(⟨3, [("database", "db")], [], []⟩ : RelationState)].get ⟨i, h1⟩).id ≠ 3 →
          relations2.get ⟨i, h2⟩
            = [(⟨3, [("database", "db")], [], []⟩ : RelationState)].get ⟨i, h1⟩) ∧
        (([(⟨3, [("database", "db")], [], []⟩ : RelationState)].get ⟨i, h1⟩).id = 3 →
          ∀ k, Dict.lookup (relations2.get ⟨i, h2⟩).localAppBag k
            = firstSome (Dict.lookup [("extra-user-roles", "admin")] k)
                (Dict.lookup ([(⟨3, [("database", "db")], [], []⟩ :
                    RelationState)].get ⟨i, h1⟩).localAppBag k)) :=
  (update_relation_data_leader_gate [⟨3, [("database", "db")], [], []⟩] 3
    [("extra-user-roles", "admin")]).2 ⟨3, [("database", "db")], [], []⟩
    (by decide) (by decide)

/-- The truthy alias persisted in a relation's local unit databag:
`none` when the `alias` key is absent or holds the empty string. -/
def aliasOf (r : RelationState) : Option String :=
  match r.localUnitBag.lookup "alias" with
  | some s => if s = "" then none else some s
  | none => none

/-- The aliases already claimed, in relation-scan order: for each
relation of the relation name, the truthy value stored under `alias` in
its local unit databag. -/
def claimedAliases (relations : List RelationState) : List String :=
  relations.filterMap aliasOf

/-- Python `list.remove`: drop the first occurrence of the value; `none`
models the `ValueError` raised when the value is absent. -/
def removeFirst : List String → String → Option (List String)
  | [], _ => none
  | x :: xs, a =>
    if x = a then some xs else Option.map (fun ys => x :: ys) (removeFirst xs a)

/-- The scan loop of `_assign_relation_alias`: remove every claimed alias
from the pool copy, in order; `none` when some removal raises. -/
def removeAll : List String → List String → Option (List String)
  | avail, [] => some avail
  | avail, a :: rest =>
    match removeFirst avail a with
    | none => none
    | some avail2 => removeAll avail2 rest

/-- The final write of `_assign_relation_alias`: store the alias under
`alias` in the local unit databag of the relation with the given id. -/
def setRelationAlias (relations : List RelationState) (rid : Nat)
    (a : String) : List RelationState :=
  relations.map (fun r =>
    if r.id = rid then
      { r with localUnitBag := r.localUnitBag.update [("alias", a)] }
    else r)

/-- `DatabaseRequires._assign_relation_alias`: return immediately when no
alias pool was configured (`None` or empty) or when the relation already
has a truthy persisted alias; otherwise remove every claimed alias from a
copy of the pool and store the first remaining alias in the relation's
local unit databag.  A `none` result models the exceptions the method can
raise: `AttributeError` when the relation id is unknown, `ValueError`
when a claimed alias is not in the pool copy, and `IndexError` when no
alias remains. -/
def assignRelationAlias (relationsAliases : Option (List String))
    (relations : List RelationState) (rid : Nat) :
    Option (List RelationState) :=
  match relationsAliases with
  | none => some relations
  | some pool =>
    if pool = [] then some relations
    else
      match findRel relations rid with
      | none => none
      | some r =>
        if truthy (r.localUnitBag.lookup "alias") then some relations
        else
          match removeAll pool (claimedAliases relations) with
          | none => none
          | some avail =>
            match avail with
            | [] => none
            | a :: _ => some (setRelationAlias relations rid a)

theorem removeFirst_of_nodup (pool : List String) (a : String)
    (hmem : a ∈ pool) (hnd : pool.Nodup) :
    removeFirst pool a = some (pool.filter (fun x => decide (x ≠ a))) := by
  induction pool with
  | nil => cases hmem
  | cons x xs ih =>
    rw [List.nodup_cons] at hnd
    by_cases hxa : x = a
    · subst hxa
      have hxs : xs.filter (fun y => decide (y ≠ x)) = xs := by
        rw [List.filter_eq_self]
        intro b hb
        simp only [decide_eq_true_eq]
        intro hbx
        exact hnd.1 (hbx ▸ hb)
      have h1 : removeFirst (x :: xs) x = some xs := by
        unfold removeFirst
        rw [if_pos rfl]
      have h2 : List.filter (fun y => decide (y ≠ x)) (x :: xs)
          = List.filter (fun y => decide (y ≠ x)) xs := by
        rw [List.filter_cons, if_neg (by simp)]
      rw [h1, h2, hxs]
    · have hmem2 : a ∈ xs := by
        rcases List.mem_cons.mp hmem with h | h
        · exact absurd h.symm hxa
        · exact h
      simp [removeFirst, hxa, ih hmem2 hnd.2, List.filter_cons,
        fun h : x = a => hxa h]

theorem removeAll_of_nodup (claimed : List String) (pool : List String)
    (hpool : pool.Nodup) (hnd : claimed.Nodup)
    (hsub : ∀ a ∈ claimed, a ∈ pool) :
    removeAll pool claimed
      = some (pool.filter (fun x => decide (x ∉ claimed))) := by
  induction claimed generalizing pool with
  | nil => simp [removeAll, List.filter_eq_self]
  | cons a rest ih =>
    rw [List.nodup_cons] at hnd
    rw [removeAll, removeFirst_of_nodup pool a (hsub a (List.mem_cons_self a rest)) hpool]
    show removeAll (pool.filter (fun x => decide (x ≠ a))) rest = _
    rw [ih (pool.filter (fun x => decide (x ≠ a))) (hpool.filter _) hnd.2 ?_]
    · rw [List.filter_filter]
      refine congrArg some (List.filter_congr ?_)
      intro x _
      by_cases hxa : x = a
      · subst hxa
        simp
      · by_cases hxr : x ∈ rest <;> simp [hxa, hxr]
    · intro b hb
      rw [List.mem_filter]
      refine ⟨hsub b (List.mem_cons_of_mem a hb), ?_⟩
      simp only [decide_eq_true_eq]
      intro hba
      exact hnd.1 (hba ▸ hb)

/-- C6: `_assign_relation_alias` is a no-op when no alias pool was
configured (no list, or the empty list) and when the relation already has
a truthy persisted alias — repeated calls leave the assignment unchanged;
otherwise it stores, for the given relation, the first alias in
configured pool order that no relation under the same relation name has
already claimed. -/
theorem assign_relation_alias_spec (pool : List String)
    (relations : List RelationState) (rid : Nat) :
    assignRelationAlias none relations rid = some relations ∧
    assignRelationAlias (some []) relations rid = some relations ∧
    (∀ r, findRel relations rid = some r →
      truthy (r.localUnitBag.lookup "alias") = true →
      assignRelationAlias (some pool) relations rid = some relations) ∧
    (∀ r, pool ≠ [] → pool.Nodup →
      findRel relations rid = some r →
      truthy (r.localUnitBag.lookup "alias") = false →
      (claimedAliases relations).Nodup →
      (∀ a ∈ claimedAliases relations, a ∈ pool) →
      ∀ a rest,
        pool.filter (fun x => decide (x ∉ claimedAliases relations)) = a :: rest →
        assignRelationAlias (some pool) relations rid
          = some (setRelationAlias relations rid a)) := by
  refine ⟨rfl, rfl, ?_, ?_⟩
  · intro r hr ht
    by_cases hp : pool = [] <;> simp [assignRelationAlias, hp, hr, ht]
  · intro r hne hpnd hr hf hclnd hclsub a rest hfil
    have hrem := removeAll_of_nodup (claimedAliases relations) pool hpnd hclnd hclsub
    rw [hfil] at hrem
    simp [assignRelationAlias, hne, hr, hf, hrem]

theorem assign_relation_alias_spec_witness :
    assignRelationAlias (some ["a", "b"])
        [⟨1, [], [("alias", "a")], []⟩, ⟨2, [], [], []⟩] 2
      = some (setRelationAlias
          [⟨1, [], [("alias", "a")], []⟩, ⟨2, [], [], []⟩] 2 "b") :=
  (assign_relation_alias_spec ["a", "b"]
      [⟨1, [], [("alias", "a")], []⟩, ⟨2, [], [], []⟩] 2).2.2.2
    ⟨2, [], [], []⟩ (by decide) (by decide) (by decide) (by decide)
    (by decide) (by decide) "b" [] (by decide)

theorem removeFirst_exists (pool : List String) (a : String) (h : a ∈ pool) :
    ∃ pool2, removeFirst pool a = some pool2 ∧ pool2.length + 1 = pool.length ∧
      ∀ x ∈ pool, x ≠ a → x ∈ pool2 := by
  induction pool with
  | nil => cases h
  | cons x xs ih =>
    by_cases hxa : x = a
    · subst hxa
      refine ⟨xs, ?_, rfl, ?_⟩
      · unfold removeFirst
        rw [if_pos rfl]
      · intro y hy hne
        rcases List.mem_cons.mp hy with rfl | h2
        · exact absurd rfl hne
        · exact h2
    · have ha2 : a ∈ xs := by
        rcases List.mem_cons.mp h with h1 | h1
        · exact absurd h1.symm hxa
        · exact h1
      obtain ⟨p2, hp2, hlen, hmem⟩ := ih ha2
      refine ⟨x :: p2, ?_, by simp [← hlen], ?_⟩
      · unfold removeFirst
        rw [if_neg hxa, hp2]
        rfl
      · intro y hy hne
        rcases List.mem_cons.mp hy with rfl | h2
        · exact List.mem_cons_self _ _
        · exact List.mem_cons_of_mem _ (hmem y h2 hne)

theorem removeAll_exists (claimed : List String) (pool : List String)
    (hnd : claimed.Nodup) (hsub : ∀ a ∈ claimed, a ∈ pool) :
    ∃ avail, removeAll pool claimed = some avail ∧
      avail.length + claimed.length = pool.length := by
  induction claimed generalizing pool with
  | nil => exact ⟨pool, rfl, by simp⟩
  | cons a rest ih =>
    rw [List.nodup_cons] at hnd
    obtain ⟨p2, hp2, hlen, hmem⟩ :=
      removeFirst_exists pool a (hsub a (List.mem_cons_self a rest))
    obtain ⟨avail, hav, hlen2⟩ := ih p2 hnd.2
      (fun b hb => hmem b (hsub b (List.mem_cons_of_mem a hb))
        (fun hba => hnd.1 (hba ▸ hb)))
    refine ⟨avail, ?_, ?_⟩
    · rw [removeAll, hp2]
      exact hav
    · simp only [List.length_cons]
      omega

theorem aliasOf_eq_none (r : RelationState)
    (hf : truthy (r.localUnitBag.lookup "alias") = false) :
    aliasOf r = none := by
  unfold aliasOf
  cases hl : r.localUnitBag.lookup "alias" with
  | none => rfl
  | some s =>
    rw [hl] at hf
    simp [truthy] at hf
    simp [hf]

theorem claimedAliases_length_lt (relations : List RelationState)
    (r : RelationState) (hr : r ∈ relations)
    (hf : truthy (r.localUnitBag.lookup "alias") = false) :
    (claimedAliases relations).length < relations.length := by
  induction relations with
  | nil => cases hr
  | cons s rest ih =>
    rcases List.mem_cons.mp hr with rfl | h2
    · simp only [claimedAliases, List.filterMap_cons, aliasOf_eq_none r hf,
        List.length_cons]
      have hle := List.length_filterMap_le aliasOf rest
      omega
    · have h3 := ih h2
      simp only [claimedAliases] at h3 ⊢
      cases hs : aliasOf s <;>
        simp only [List.filterMap_cons, hs, List.length_cons] <;> omega

/-- C10: under the invariants that the number of relations under the
relation name does not exceed the pool size and that the persisted
aliases are distinct members of the configured pool,
`_assign_relation_alias` on an existing relation never raises: every
removal of a claimed alias from the pool copy succeeds and the remaining
alias list is non-empty when its first element is taken. -/
theorem assign_relation_alias_total (pool : List String)
    (relations : List RelationState) (rid : Nat) (r : RelationState)
    (hlen : relations.length ≤ pool.length)
    (hnd : (claimedAliases relations).Nodup)
    (hsub : ∀ a ∈ claimedAliases relations, a ∈ pool)
    (hfind : findRel relations rid = some r) :
    (assignRelationAlias (some pool) relations rid).isSome = true := by
  by_cases hp : pool = []
  · simp [assignRelationAlias, hp]
  by_cases ht : truthy (r.localUnitBag.lookup "alias") = true
  · simp [assignRelationAlias, hp, hfind, ht]
  · have hf : truthy (r.localUnitBag.lookup "alias") = false :=
      Bool.eq_false_iff.mpr ht
    have hrmem : r ∈ relations := List.mem_of_find?_eq_some hfind
    obtain ⟨avail, hav, hlen2⟩ :=
      removeAll_exists (claimedAliases relations) pool hnd hsub
    have hlt := claimedAliases_length_lt relations r hrmem hf
    cases avail with
    | nil =>
      exfalso
      simp only [List.length_nil] at hlen2
      omega
    | cons a tail =>
      simp [assignRelationAlias, hp, hfind, hf, hav]

theorem assign_relation_alias_total_witness :
    (assignRelationAlias (some ["a"]) [⟨1, [], [], []⟩] 1).isSome = true :=
  assign_relation_alias_total ["a"] [⟨1, [], [], []⟩] 1 ⟨1, [], [], []⟩
    (by decide) (by decide) (by decide) (by decide)

/-- The message of the `ValueError` raised by `DatabaseRequires.__init__`
on an alias-count mismatch (the expected and actual counts of the
original message are not carried in the model). -/
def aliasCountMessage : String :=
  "The number of aliases must match the maximum number of connections allowed in the relation."

/-- The alias validation of `DatabaseRequires.__init__`: when a truthy
aliases list was passed (`if relations_aliases:` — both `None` and the
empty list are falsy and skip the block) and its length differs from the
relation's declared connection limit, a `ValueError` is raised; in every
other case construction proceeds. -/
def databaseRequiresInitCheck (relationsAliases : Option (List String))
    (limit : Nat) : Except String Unit :=
  match relationsAliases with
  | none => Except.ok ()
  | some aliases =>
    if aliases = [] then Except.ok ()
    else if aliases.length ≠ limit then Except.error aliasCountMessage
    else Except.ok ()

/-- C7 counterexample: the empty aliases list has length 0, different
from a declared connection limit of 2, yet construction raises no error —
the validation block is skipped for a falsy (empty) aliases list. -/
theorem init_check_skips_empty_list :
    ([] : List String).length ≠ 2 ∧
      databaseRequiresInitCheck (some []) 2 = Except.ok () :=
  ⟨by decide, rfl⟩

/-- C7 amended: for every non-empty aliases list whose length differs
from the relation's declared connection limit, construction fails with a
`ValueError` at construction time; construction with a matching length,
with no aliases list, or with the (falsy) empty aliases list raises no
such error. -/
theorem init_check_spec (aliases : List String) (limit : Nat) :
    (aliases ≠ [] → aliases.length ≠ limit →
      databaseRequiresInitCheck (some aliases) limit
        = Except.error aliasCountMessage) ∧
    (aliases.length = limit →
      databaseRequiresInitCheck (some aliases) limit = Except.ok ()) ∧
    databaseRequiresInitCheck none limit = Except.ok () ∧
    databaseRequiresInitCheck (some []) limit = Except.ok () := by
  refine ⟨?_, ?_, rfl, ?_⟩
  · intro h1 h2
    simp [databaseRequiresInitCheck, h1, h2]
  · intro h
    by_cases h1 : aliases = [] <;> simp [databaseRequiresInitCheck, h1, h]
  · simp [databaseRequiresInitCheck]

theorem init_check_spec_witness :
    databaseRequiresInitCheck (some ["cluster1"]) 2
      = Except.error aliasCountMessage :=
  (init_check_spec ["cluster1"] 2).1 (by decide) (by decide)

/-- C8 counterexample: on a stored baseline that is not parseable as
JSON, `_diff` does not treat the baseline as empty and report the current
fields as added — it raises (`json.loads` propagates
`json.JSONDecodeError`), returning no diff at all. -/
theorem diff_corrupt_baseline_raises :
    diffRun (some (StoredData.corrupt "not json")) [("username", "u")]
      = none := rfl

/-- C8 amended: a missing persisted baseline is treated as the empty
baseline — every current field is reported as added, nothing as changed
or deleted, and no error is raised — while a present but unparseable
baseline makes `_diff` raise the JSON decoding error instead of treating
it as empty. -/
theorem diff_missing_baseline_vs_corrupt (remote : Dict) (raw : String) :
    (∃ d, diffRun none remote = some (d, jsonDumps (currentData remote)) ∧
      (∀ k, k ∈ d.added ↔ k ∈ Dict.keys (currentData remote)) ∧
      d.changed = [] ∧ d.deleted = []) ∧
    diffRun (some (StoredData.corrupt raw)) remote = none := by
  constructor
  · refine ⟨computeDiff [] (currentData remote), rfl, ?_, rfl, rfl⟩
    intro k
    rw [mem_added_computeDiff]
    simp [Dict.keys]
  · rfl

/-- `ZookeeperRequires._on_relation_joined_event`: on join, write the
configured data into the local application databag through
`_update_relation_data` — both `chroot` and `extra-user-roles` when extra
user roles are not `None`, and otherwise a single pair whose key is,
verbatim from the source, `topic`. -/
def zookeeperOnRelationJoined (isLeader : Bool)
    (relations : List RelationState) (rid : Nat) (chroot : String)
    (extraUserRoles : Option String) : Option (List RelationState) :=
  updateRelationData isLeader relations rid
    (match extraUserRoles with
     | some roles => [("chroot", chroot), ("extra-user-roles", roles)]
     | none => [("topic", chroot)])

/-- C9 evaluated at the failing input: on the leader with no extra user
roles configured, the join handler stores the chroot value under the key
`topic` and leaves the `chroot` key unset — contradicting the handler's
own comment ("Otherwise, sets only the chroot.") and the declared
coordination-service schema — while the extra-user-roles branch does use
the `chroot` key. -/
theorem zookeeper_joined_writes_wrong_key :
    zookeeperOnRelationJoined true [⟨5, [], [], []⟩] 5 "/zk" none
        = some [⟨5, [("topic", "/zk")], [], []⟩] ∧
    Dict.lookup [("topic", "/zk")] "chroot" = none ∧
    Dict.lookup [("topic", "/zk")] "topic" = some "/zk" ∧
    zookeeperOnRelationJoined true [⟨5, [], [], []⟩] 5 "/zk" (some "admin")
        = some [⟨5, [("chroot", "/zk"), ("extra-user-roles", "admin")], [], []⟩] := by
  refine ⟨by decide, by decide, by decide, by decide⟩

end DataPlatform
